import Mathlib

/-!
Verification of the Azure dynamic-inventory script `azure_inventory_mde.py`
(repository `arpedraza/ansible`).

The script is embedded shallowly: every external effect (the `az` CLI, the
Microsoft Graph REST endpoint, the cache file, the clock) is passed in as
explicit data, and each Python function becomes a total Lean function over
that data.  Python dictionaries become association lists, Python `set`
becomes a duplicate-free list built by `setAdd`, a `KeyError` abort becomes
`Option` (with `none` meaning the run raised), and the string operations
`.lower()`, `.strip()`, `.split(".")[0]` and substring membership are
modelled at the character-list level.
-/

namespace AzInv

/-! ## String helpers (models of the Python string operations) -/

/-- Model of Python `str.lower()` (characterwise lowering). -/
def strLower (s : String) : String := String.mk (s.data.map Char.toLower)

/-- Model of Python `str.strip()`: drop whitespace at both ends. -/
def strTrim (s : String) : String :=
  String.mk (((s.data.dropWhile Char.isWhitespace).reverse.dropWhile
    Char.isWhitespace).reverse)

/-- Model of Python `s.split(".")[0]`: the part of `s` before the first dot. -/
def headLabel (s : String) : String :=
  String.mk (s.data.takeWhile (fun c => c != '.'))

/-- `strStarts hay needle` is true when `needle` begins `hay`. -/
def strStarts : List Char → List Char → Bool
  | _, [] => true
  | [], _ :: _ => false
  | a :: as, b :: bs => a == b && strStarts as bs

/-- `strHasSub needle hay` is true when `needle` occurs contiguously in `hay`. -/
def strHasSub (needle : List Char) : List Char → Bool
  | [] => strStarts [] needle
  | a :: t => strStarts (a :: t) needle || strHasSub needle t

/-- Model of the Python test `needle in hay` on strings. -/
def strContains (hay needle : String) : Bool := strHasSub needle.data hay.data

/-- Model of Python `x or None` applied to an optional string: an absent or
empty string is falsy and collapses to `none`. -/
def truthyStr : Option String → Option String
  | some s => if s = "" then none else some s
  | none => none

/-! ## Data model

Records carry the fields the script reads.  A field read with `dict.get`
is `Option String` (`none` covers both an absent key and a JSON `null`).
The `publisher` field of a VM record is read by direct indexing
(`vm["publisher"]`), so absence of the key and a `null` value behave
differently there: it is `Option (Option String)`, the outer layer being
key presence. -/

structure VMRecord where
  name : Option String
  resourceGroup : Option String
  location : Option String
  osType : Option String
  publisher : Option (Option String)
  offer : Option String
  sku : Option String
  id : Option String
  nicId : Option String
deriving DecidableEq, Repr

structure NICRecord where
  id : Option String
  privateIp : Option String
deriving DecidableEq, Repr

structure HostVars where
  ansible_host : Option String
  private_ip : Option String
  resource_group : Option String
  location : Option String
  os_type : Option String
  nic_id : Option String
  mde_onboarded : Option Bool
deriving DecidableEq, Repr

/-- The inventory document built by `main`.  Group lists hold host names in
append order; `hostvars` is the `_meta.hostvars` dictionary as an
association list with Python-dict (replace-on-rewrite) semantics. -/
structure Inventory where
  hostvars : List (String × HostVars)
  all : List String
  linux : List String
  windows : List String
  network_appliances : List String
  windows_mde_onboarded : List String
  windows_mde_not_onboarded : List String
deriving DecidableEq, Repr

/-- `empty_inventory()` from the script: the six groups and empty hostvars. -/
def empty_inventory : Inventory :=
  { hostvars := [], all := [], linux := [], windows := [],
    network_appliances := [], windows_mde_onboarded := [],
    windows_mde_not_onboarded := [] }

/-- Python dict assignment `m[k] = v` on an association list: replace the
entry when the key is present, else append.  Dictionaries reachable from the
empty dict have duplicate-free keys, so replacing every matching entry
coincides with Python semantics. -/
def dictInsert {α : Type} (m : List (String × α)) (k : String) (v : α) :
    List (String × α) :=
  if m.any (fun kv => kv.1 == k) then
    m.map (fun kv => if kv.1 == k then (k, v) else kv)
  else m ++ [(k, v)]

/-- Python `m.get(k)` on an association list. -/
def dictGet {α : Type} (m : List (String × α)) (k : String) : Option α :=
  List.lookup k m

/-! ## Paginated Query Client (`graph_query_all`)

A backend interaction is the list of responses the `az graph query` calls
would produce, in call order: `none` is any failed call (timeout, non-zero
exit, blank output, or JSON that fails to parse — the script treats all
four identically), `some page` a parsed payload. -/

structure GraphPage (α : Type) where
  data : List α
  skipToken : Option String
  skipTokenAlt : Option String
deriving DecidableEq, Repr

/-- The continuation token the script extracts:
`payload.get("skipToken") or payload.get("skip_token") or None`. -/
def effToken {α : Type} (p : GraphPage α) : Option String :=
  match truthyStr p.skipToken with
  | some t => some t
  | none => truthyStr p.skipTokenAlt

/-- The pagination loop of `graph_query_all`.  Returns `none` when some call
failed (the script does `return []` there, discarding earlier pages) paired
with the number of calls made; on success, the concatenation of the pages.
An exhausted response list models a backend that stops answering. -/
def gqaRun {α : Type} : List (Option (GraphPage α)) → Option (List α) × Nat
  | [] => (none, 0)
  | none :: _ => (none, 1)
  | some p :: rest =>
    match effToken p with
    | none => (some p.data, 1)
    | some _ =>
      let r := gqaRun rest
      match r.1 with
      | none => (none, r.2 + 1)
      | some res => (some (p.data ++ res), r.2 + 1)

/-- `graph_query_all` from the script: all pages concatenated, or `[]` on
any failure.  The second component counts the backend calls made. -/
def graph_query_all {α : Type} (responses : List (Option (GraphPage α))) :
    List α × Nat :=
  ((gqaRun responses).1.getD [], (gqaRun responses).2)

/-- Concatenation of the `data` arrays of the successful responses in a
list, used to state what a successful run returns. -/
def pagesData {α : Type} (l : List (Option (GraphPage α))) : List α :=
  ((l.filterMap (fun o => o)).map GraphPage.data).flatten

/-! ## Onboarding-Key Resolver (`get_mde_windows_machine_keys`)

The security-machines endpoint is modelled as the list of responses the
successive `graph_api_get` calls would produce: `none` covers a timeout, a
non-zero exit, empty output or an unparsable payload (the script returns
`None` in all four cases), each of which makes `if not payload: break`
fire. -/

structure MdeMachine where
  osPlatform : Option String
  azureVmId : Option String
  computerDnsName : Option String
deriving DecidableEq, Repr

structure MdePage where
  value : List MdeMachine
  nextLink : Option String
deriving DecidableEq, Repr

/-- Python `set.add`: insert the key when it is not already present. -/
def setAdd (s : List String) (k : String) : List String :=
  if s.contains k then s else s ++ [k]

/-- The body of the `for m in payload.get("value", [])` loop: skip records
whose platform is not Windows, then add the lowered Azure VM id and the
lowered leading DNS label when those fields are truthy. -/
def addMachineKeys (acc : List String) (m : MdeMachine) : List String :=
  if m.osPlatform != some "Windows" then acc
  else
    let acc1 :=
      match m.azureVmId with
      | some s => if s = "" then acc else setAdd acc (strLower s)
      | none => acc
    match m.computerDnsName with
    | some s => if s = "" then acc1 else setAdd acc1 (strLower (headLabel s))
    | none => acc1

/-- The `while url:` loop.  A failed call breaks out of the loop and the
keys accumulated so far are returned; a successful page is folded in and
the loop continues exactly when `payload.get("@odata.nextLink")` is
truthy. -/
def mdeGo : List (Option MdePage) → List String → List String
  | [], acc => acc
  | none :: _, acc => acc
  | some p :: rest, acc =>
    let acc1 := p.value.foldl addMachineKeys acc
    match truthyStr p.nextLink with
    | none => acc1
    | some _ => mdeGo rest acc1

/-- `get_mde_windows_machine_keys` from the script. -/
def get_mde_windows_machine_keys (responses : List (Option MdePage)) :
    List String :=
  mdeGo responses []

/-! ## Join & Classification Engine (the body of `main`) -/

/-- `APPLIANCE_PUBLISHERS` from the script (a Python set of literals; only
membership is used, so a list is an adequate model). -/
def APPLIANCE_PUBLISHERS : List String :=
  ["citrix", "barracudanetworks", "f5-networks", "paloaltonetworks",
   "fortinet", "sophos", "checkpoint", "cisco"]

/-- `(vm.get("name") or "").strip()`. -/
def trimName (vm : VMRecord) : String := strTrim (vm.name.getD "")

/-- One pass of the NIC loop: `if nic_id: nic_ip_map[nic_id] = ...`, where
the stored value is `(nic.get("privateIp") or "").strip() or None`. -/
def nicStep (m : List (String × Option String)) (nic : NICRecord) :
    List (String × Option String) :=
  match nic.id with
  | none => m
  | some i =>
    if i = "" then m
    else dictInsert m i (truthyStr (some (strTrim (nic.privateIp.getD ""))))

/-- Step 3 of `main`: build the NIC-id → private-IP map. -/
def buildNicMap (nics : List NICRecord) : List (String × Option String) :=
  nics.foldl nicStep []

/-- `nic_ip_map.get(nic_id)` where `nic_id` may be `None`. -/
def lookupNic (m : List (String × Option String)) (k : Option String) :
    Option String :=
  match k with
  | none => none
  | some key =>
    match dictGet m key with
    | some v => v
    | none => none

/-- The body of the `for vm in vms:` loop.  A blank name skips the record;
reading `vm["publisher"]` with the key absent raises `KeyError`, which
aborts the whole run — modelled by `none`. -/
def processVM (keys : List String) (nicMap : List (String × Option String))
    (inv : Inventory) (vm : VMRecord) : Option Inventory :=
  let name := trimName vm
  if name = "" then some inv
  else
    let nic_id := vm.nicId
    let ip := lookupNic nicMap nic_id
    let hv : HostVars :=
      { ansible_host := ip, private_ip := ip,
        resource_group := vm.resourceGroup, location := vm.location,
        os_type := vm.osType, nic_id := nic_id, mde_onboarded := none }
    let inv1 : Inventory :=
      { inv with all := inv.all ++ [name],
                 hostvars := dictInsert inv.hostvars name hv }
    match vm.publisher with
    | none => none
    | some pubv =>
      let publisher := strLower (pubv.getD "")
      let is_appliance := APPLIANCE_PUBLISHERS.any (fun p => strContains publisher p)
      if vm.osType == some "Linux" && !is_appliance then
        some { inv1 with linux := inv1.linux ++ [name] }
      else if vm.osType == some "Linux" && is_appliance then
        some { inv1 with network_appliances := inv1.network_appliances ++ [name] }
      else if vm.osType == some "Windows" then
        let vm_id_key := strLower (vm.id.getD "")
        let name_key := strLower name
        let is_onboarded := keys.contains vm_id_key || keys.contains name_key
        let inv2 : Inventory :=
          { inv1 with windows := inv1.windows ++ [name],
                      hostvars := dictInsert inv1.hostvars name
                        { hv with mde_onboarded := some is_onboarded } }
        if is_onboarded then
          some { inv2 with windows_mde_onboarded := inv2.windows_mde_onboarded ++ [name] }
        else
          some { inv2 with windows_mde_not_onboarded := inv2.windows_mde_not_onboarded ++ [name] }
      else
        some { inv1 with windows := inv1.windows ++ [name] }

/-- Step 4 of `main`: fold the VM loop over the fetched records.  `none`
means the run raised (the `KeyError` of `vm["publisher"]`). -/
def buildInventory (vms : List VMRecord) (nicMap : List (String × Option String))
    (keys : List String) : Option Inventory :=
  vms.foldlM (fun inv vm => processVM keys nicMap inv vm) empty_inventory

/-- The non-cached path of `main` after the three fetches: `if not vms:`
short-circuits to the empty inventory (the NIC and onboarding data are
ignored); otherwise the join runs. -/
def runMain (vms : List VMRecord) (nics : List NICRecord) (keys : List String) :
    Option Inventory :=
  if vms.isEmpty then some empty_inventory
  else buildInventory vms (buildNicMap nics) keys

/-- The whole non-cached pipeline, from backend responses to the emitted
document. -/
def runPipeline (vmResp : List (Option (GraphPage VMRecord)))
    (nicResp : List (Option (GraphPage NICRecord)))
    (mdeResp : List (Option MdePage)) : Option Inventory :=
  runMain (graph_query_all vmResp).1 (graph_query_all nicResp).1
    (get_mde_windows_machine_keys mdeResp)

/-! ## Freshness Cache (`load_cache_if_fresh` / `save_cache`)

The cache file is modelled as `Option (String × Int)`: absent, or its text
content paired with its mtime.  The clock is an explicit `now`.  The
`try/except` wrappers swallow every I/O failure, so each operation also
takes the environment fact "an I/O exception occurred" as a boolean. -/

def CACHE_TTL_SECONDS : Int := 300

abbrev CacheFS := Option (String × Int)

/-- Serialization of an optional string as JSON (`json.dump` writes Python
`None` as `null`).  Escaping of special characters inside string data is
a faithful-enough model of the `json` module for the host names and ids
this script handles. -/
def jsonEscapeChar (c : Char) : List Char :=
  if c = '"' then ['\\', '"']
  else if c = '\\' then ['\\', '\\']
  else if c = '\n' then ['\\', 'n']
  else if c = '\t' then ['\\', 't']
  else if c = '\r' then ['\\', 'r']
  else [c]

def jsonStr (s : String) : String :=
  "\"" ++ String.mk ((s.data.map jsonEscapeChar).flatten) ++ "\""

def jsonOptStr : Option String → String
  | none => "null"
  | some s => jsonStr s

def commaJoin : List String → String
  | [] => ""
  | [s] => s
  | s :: t :: r => s ++ ", " ++ commaJoin (t :: r)

/-- A hostvars entry in the dict order `main` creates it in; the
`mde_onboarded` key is present only when the Windows branch set it. -/
def jsonHV (hv : HostVars) : String :=
  "\x7b" ++ commaJoin
    (["\"ansible_host\": " ++ jsonOptStr hv.ansible_host,
      "\"private_ip\": " ++ jsonOptStr hv.private_ip,
      "\"resource_group\": " ++ jsonOptStr hv.resource_group,
      "\"location\": " ++ jsonOptStr hv.location,
      "\"os_type\": " ++ jsonOptStr hv.os_type,
      "\"nic_id\": " ++ jsonOptStr hv.nic_id] ++
     (match hv.mde_onboarded with
      | none => []
      | some b => ["\"mde_onboarded\": " ++ (if b then "true" else "false")]))
  ++ "\x7d"

def jsonHosts (l : List String) : String :=
  "[" ++ commaJoin (l.map jsonStr) ++ "]"

def jsonGroup (l : List String) : String :=
  "\x7b\"hosts\": " ++ jsonHosts l ++ "\x7d"

/-- `json.dump(inventory, f)` with the dict in the insertion order
`empty_inventory` establishes. -/
def serializeInv (inv : Inventory) : String :=
  "\x7b" ++ commaJoin
    ["\"_meta\": \x7b\"hostvars\": \x7b" ++
       commaJoin (inv.hostvars.map (fun kv => jsonStr kv.1 ++ ": " ++ jsonHV kv.2)) ++
       "\x7d\x7d",
     "\"all\": " ++ jsonGroup inv.all,
     "\"linux\": " ++ jsonGroup inv.linux,
     "\"windows\": " ++ jsonGroup inv.windows,
     "\"network_appliances\": " ++ jsonGroup inv.network_appliances,
     "\"windows_mde_onboarded\": " ++ jsonGroup inv.windows_mde_onboarded,
     "\"windows_mde_not_onboarded\": " ++ jsonGroup inv.windows_mde_not_onboarded]
  ++ "\x7d"

/-- `load_cache_if_fresh` from the script: the file text when the file
exists and its age is strictly below the TTL, else `None`; any I/O failure
inside the `try` behaves as a cache miss. -/
def load_cache_if_fresh (fs : CacheFS) (now : Int) (ioError : Bool) :
    Option String :=
  if ioError then none
  else
    match fs with
    | some cm => if now - cm.2 < CACHE_TTL_SECONDS then some cm.1 else none
    | none => none

/-- `save_cache` from the script: overwrite the cache file with the
serialized document; a failure to write is swallowed and leaves the file
system as it was. -/
def save_cache (fs : CacheFS) (payload : Inventory) (now : Int)
    (ioError : Bool) : CacheFS :=
  if ioError then fs else some (serializeInv payload, now)

/-! ## Counting helpers used by the statements -/

/-- Number of entries of the hostvars dictionary carrying key `x`. -/
def countKey (m : List (String × HostVars)) (x : String) : Nat :=
  (m.filter (fun kv => kv.1 == x)).length

/-! ## Concrete inputs used by witnesses and counterexamples -/

def exMdeMachine : MdeMachine :=
  { osPlatform := some "Windows", azureVmId := some "A",
    computerDnsName := none }

def exMdePage : MdePage :=
  { value := [exMdeMachine], nextLink := some "next" }

/-- One successful page carrying a continuation link, then a failed call. -/
def exMdeResp : List (Option MdePage) := [some exMdePage, none]

def exPage (d : List Nat) (t : Option String) : GraphPage Nat :=
  { data := d, skipToken := t, skipTokenAlt := none }

def exVmCisco : VMRecord :=
  { name := some "lnx1", resourceGroup := some "rg", location := some "eu",
    osType := some "Linux", publisher := some (some "Cisco Systems, Inc."),
    offer := none, sku := none, id := none, nicId := none }

def exVmWin : VMRecord :=
  { name := some "HostA", resourceGroup := none, location := none,
    osType := some "Windows", publisher := some none,
    offer := none, sku := none, id := some "ID1", nicId := some "nic1" }

def exVmOther : VMRecord :=
  { name := some "box1", resourceGroup := none, location := none,
    osType := none, publisher := some none,
    offer := none, sku := none, id := none, nicId := none }

def exVmNoPub : VMRecord :=
  { name := some "badhost", resourceGroup := none, location := none,
    osType := some "Linux", publisher := none,
    offer := none, sku := none, id := none, nicId := none }

def exVmBlank : VMRecord :=
  { name := some "   ", resourceGroup := none, location := none,
    osType := some "Linux", publisher := some none,
    offer := none, sku := none, id := none, nicId := none }

def c3vms : List VMRecord := [exVmCisco, exVmWin, exVmOther, exVmBlank]

def c3inv : Inventory :=
  (buildInventory c3vms [("nic1", some "10.0.0.1")] ["id1"]).getD empty_inventory

/-! ## Abbreviations for stating the join-engine theorems -/

/-- The hostvars entry `main` creates for a VM before any onboarding
annotation. -/
def baseHV (nicMap : List (String × Option String)) (vm : VMRecord) : HostVars :=
  { ansible_host := lookupNic nicMap vm.nicId,
    private_ip := lookupNic nicMap vm.nicId,
    resource_group := vm.resourceGroup, location := vm.location,
    os_type := vm.osType, nic_id := vm.nicId, mde_onboarded := none }

/-- The `is_onboarded` boolean `main` computes for a Windows VM. -/
def onboardedB (keys : List String) (vm : VMRecord) : Bool :=
  keys.contains (strLower (vm.id.getD "")) || keys.contains (strLower (trimName vm))

/-- The `is_appliance` boolean `main` computes from a publisher value. -/
def isApplianceB (pubv : Option String) : Bool :=
  APPLIANCE_PUBLISHERS.any (fun p => strContains (strLower (pubv.getD "")) p)

/-! ## Bridge lemmas -/

theorem contains_mem_iff (l : List String) (s : String) :
    l.contains s = true ↔ s ∈ l := by
  rw [List.contains_eq_any_beq]
  simp

/-! ## C2: behaviour of the resolver on a mid-pagination failure -/

theorem mdeGo_success_pages (pages : List MdePage) (rest : List (Option MdePage))
    (acc : List String)
    (h : ∀ p ∈ pages, (truthyStr p.nextLink).isSome = true) :
    mdeGo (pages.map some ++ none :: rest) acc
      = pages.foldl (fun a p => p.value.foldl addMachineKeys a) acc := by
  induction pages generalizing acc with
  | nil => simp [mdeGo]
  | cons p t ih =>
    have hp := h p (by simp)
    obtain ⟨u, hu⟩ := Option.isSome_iff_exists.mp hp
    simp only [List.map_cons, List.cons_append, mdeGo, hu, List.foldl_cons]
    exact ih _ (fun q hq => h q (by simp [hq]))

/-- C2, counterexample: one successful security-machines page (one Windows
machine with Azure VM id `"A"`, carrying a next link) followed by a failed
call does NOT yield the empty key set — the resolver returns the partial
set `["a"]` built from the page that succeeded. -/
theorem c2_counterexample :
    get_mde_windows_machine_keys exMdeResp = ["a"] ∧
    get_mde_windows_machine_keys exMdeResp ≠ [] := by
  constructor
  · decide
  · decide

/-- C2, amended: when a page fails (timeout, non-zero exit, empty output or
unparsable payload) after pages that succeeded, `get_mde_windows_machine_keys`
stops pagination and returns the key set accumulated from the successful
pages — a partial set, not the empty set. -/
theorem c2_resolver_partial_on_failure (pages : List MdePage)
    (rest : List (Option MdePage))
    (h : ∀ p ∈ pages, (truthyStr p.nextLink).isSome = true) :
    get_mde_windows_machine_keys (pages.map some ++ none :: rest)
      = pages.foldl (fun a p => p.value.foldl addMachineKeys a) [] := by
  unfold get_mde_windows_machine_keys
  exact mdeGo_success_pages pages rest [] h

theorem c2_resolver_partial_on_failure_witness :
    get_mde_windows_machine_keys ([exMdePage].map some ++ none :: [])
      = [exMdePage].foldl (fun a p => p.value.foldl addMachineKeys a) [] :=
  c2_resolver_partial_on_failure [exMdePage] [] (by decide)

/-! ## C8: cache round-trip, expiry, and failure swallowing -/

/-- C8: after `save_cache` writes the document, a `load_cache_if_fresh`
whose age is strictly below the 300-second TTL returns the serialized
document; a load with the file absent, or with age at least the TTL,
returns `none`; an I/O failure during load behaves as a cache miss and an
I/O failure during save leaves the file system unchanged — neither raises. -/
theorem c8_cache_roundtrip_expiry :
    (∀ (fs : CacheFS) (doc : Inventory) (now later : Int),
        later - now < CACHE_TTL_SECONDS →
        load_cache_if_fresh (save_cache fs doc now false) later false
          = some (serializeInv doc)) ∧
    (∀ (now : Int) (e : Bool), load_cache_if_fresh none now e = none) ∧
    (∀ (content : String) (mtime now : Int),
        CACHE_TTL_SECONDS ≤ now - mtime →
        load_cache_if_fresh (some (content, mtime)) now false = none) ∧
    (∀ (fs : CacheFS) (now : Int), load_cache_if_fresh fs now true = none) ∧
    (∀ (fs : CacheFS) (doc : Inventory) (now : Int),
        save_cache fs doc now true = fs) := by
  refine ⟨?_, ?_, ?_, ?_, ?_⟩
  · intro fs doc now later h
    simp [save_cache, load_cache_if_fresh, h]
  · intro now e
    cases e <;> simp [load_cache_if_fresh]
  · intro c mt now h
    simp [load_cache_if_fresh, if_neg (not_lt.mpr h)]
  · intro fs now
    simp [load_cache_if_fresh]
  · intro fs doc now
    simp [save_cache]

theorem c8_cache_roundtrip_expiry_witness :
    load_cache_if_fresh (save_cache none empty_inventory 100 false) 399 false
      = some (serializeInv empty_inventory) :=
  c8_cache_roundtrip_expiry.1 none empty_inventory 100 399 (by decide)

/-! ## C6: empty VM dataset short-circuits to the canonical empty document -/

/-- C6: whenever the VM query produced no records, the pipeline emits the
canonical empty inventory document (six groups present and empty, empty
hostvars) as a successful result, whatever the NIC query and the
onboarding resolver returned. -/
theorem c6_empty_vm_query (vmResp : List (Option (GraphPage VMRecord)))
    (nicResp : List (Option (GraphPage NICRecord)))
    (mdeResp : List (Option MdePage))
    (h : (graph_query_all vmResp).1 = []) :
    runPipeline vmResp nicResp mdeResp = some empty_inventory := by
  unfold runPipeline runMain
  rw [h]
  simp

theorem c6_empty_vm_query_witness :
    runPipeline [] [] [] = some empty_inventory :=
  c6_empty_vm_query [] [] [] rfl

/-! ## C4, C5: the paginated query client -/

theorem pagesData_nil {α : Type} : pagesData ([] : List (Option (GraphPage α))) = [] := by
  simp [pagesData]

theorem pagesData_some_cons {α : Type} (p : GraphPage α)
    (l : List (Option (GraphPage α))) :
    pagesData (some p :: l) = p.data ++ pagesData l := by
  simp [pagesData]

/-- A successful run of the pagination loop returns exactly the
concatenation of the `data` arrays of the pages it consumed, all of which
were successful responses. -/
theorem gqaRun_success {α : Type} (rs : List (Option (GraphPage α))) :
    ∀ (l : List α) (n : Nat), gqaRun rs = (some l, n) →
      l = pagesData (rs.take n) ∧ (rs.take n).all Option.isSome = true := by
  induction rs with
  | nil =>
    intro l n h
    simp [gqaRun] at h
  | cons o rest ih =>
    intro l n h
    cases o with
    | none => simp [gqaRun] at h
    | some p =>
      cases ht : effToken p with
      | none =>
        simp only [gqaRun, ht] at h
        simp only [Prod.mk.injEq, Option.some.injEq] at h
        obtain ⟨h1, h2⟩ := h
        subst h1
        subst h2
        simp [pagesData]
      | some t =>
        simp only [gqaRun, ht] at h
        rcases hr : gqaRun rest with ⟨r1, r2⟩
        rw [hr] at h
        cases r1 with
        | none => simp at h
        | some res =>
          simp only [Prod.mk.injEq, Option.some.injEq] at h
          obtain ⟨h1, h2⟩ := h
          subst h1
          subst h2
          obtain ⟨ih1, ih2⟩ := ih res r2 hr
          constructor
          · simp [pagesData, ih1]
          · simp [ih2]

/-- A failed call with successful token-carrying pages before it makes the
whole run fail. -/
theorem gqaRun_failure_after {α : Type} (good : List (GraphPage α))
    (rest : List (Option (GraphPage α)))
    (h : ∀ p ∈ good, (effToken p).isSome = true) :
    (gqaRun (good.map some ++ none :: rest)).1 = none := by
  induction good with
  | nil => simp [gqaRun]
  | cons p t ih =>
    obtain ⟨u, hu⟩ := Option.isSome_iff_exists.mp (h p (by simp))
    have htail := ih (fun q hq => h q (by simp [hq]))
    rcases hg : gqaRun (t.map some ++ none :: rest) with ⟨g1, g2⟩
    rw [hg] at htail
    simp only at htail
    subst htail
    simp only [List.map_cons, List.cons_append, gqaRun, hu, List.append_eq, hg]

/-- C4: `graph_query_all` returns either the empty list or the full
concatenation of the `data` arrays of the (all successful) responses it
consumed; and any failed call — even after successful pages — makes it
return the empty list, discarding the earlier pages.  The function is
total, so no exception reaches the caller. -/
theorem c4_all_or_nothing (α : Type) (rs : List (Option (GraphPage α))) :
    ((graph_query_all rs).1 = [] ∨
      ((graph_query_all rs).1 = pagesData (rs.take (graph_query_all rs).2) ∧
        (rs.take (graph_query_all rs).2).all Option.isSome = true)) ∧
    (∀ (good : List (GraphPage α)) (rest : List (Option (GraphPage α))),
        (∀ p ∈ good, (effToken p).isSome = true) →
        (graph_query_all (good.map some ++ none :: rest)).1 = []) := by
  constructor
  · rcases hr : gqaRun rs with ⟨r1, r2⟩
    cases r1 with
    | none =>
      left
      simp [graph_query_all, hr]
    | some l =>
      right
      obtain ⟨h1, h2⟩ := gqaRun_success rs l r2 hr
      constructor
      · simp only [graph_query_all, hr]
        simpa using h1
      · simp only [graph_query_all, hr]
        simpa using h2
  · intro good rest hgood
    have := gqaRun_failure_after good rest hgood
    simp [graph_query_all, this]

theorem c4_all_or_nothing_witness :
    (graph_query_all [some (exPage [1] (some "t")), none]).1 = [] :=
  (c4_all_or_nothing Nat []).2 [exPage [1] (some "t")] [] (by decide)

/-- C5: with three successful token-carrying pages followed by a successful
response with no continuation token (and no records), the client makes
exactly four calls and returns the in-order concatenation of the three
pages; in general the loop stops exactly on a response with no token under
either recognized key name (`effToken`) and keeps calling otherwise. -/
theorem c5_pagination_termination (α : Type) (p1 p2 p3 p4 : GraphPage α)
    (h1 : (effToken p1).isSome = true) (h2 : (effToken p2).isSome = true)
    (h3 : (effToken p3).isSome = true) (h4 : effToken p4 = none)
    (hd : p4.data = []) :
    graph_query_all [some p1, some p2, some p3, some p4]
      = (p1.data ++ p2.data ++ p3.data, 4) ∧
    (∀ (p : GraphPage α) (rest : List (Option (GraphPage α))),
        effToken p = none → graph_query_all (some p :: rest) = (p.data, 1)) ∧
    (∀ (p : GraphPage α) (rest : List (Option (GraphPage α))) (t : String),
        effToken p = some t →
        (graph_query_all (some p :: rest)).2 = (graph_query_all rest).2 + 1) := by
  obtain ⟨t1, ht1⟩ := Option.isSome_iff_exists.mp h1
  obtain ⟨t2, ht2⟩ := Option.isSome_iff_exists.mp h2
  obtain ⟨t3, ht3⟩ := Option.isSome_iff_exists.mp h3
  refine ⟨?_, ?_, ?_⟩
  · simp [graph_query_all, gqaRun, ht1, ht2, ht3, h4, hd]
  · intro p rest hp
    simp [graph_query_all, gqaRun, hp]
  · intro p rest t hp
    simp only [graph_query_all, gqaRun, hp]
    rcases hg : gqaRun rest with ⟨g1, g2⟩
    cases g1 <;> simp [hg]

theorem c5_pagination_termination_witness :
    graph_query_all [some (exPage [1] (some "t")), some (exPage [2] (some "t")),
      some (exPage [3] (some "t")), some (exPage [] none)] = ([1, 2, 3], 4) := by
  have h := (c5_pagination_termination Nat (exPage [1] (some "t"))
    (exPage [2] (some "t")) (exPage [3] (some "t")) (exPage [] none)
    (by decide) (by decide) (by decide) (by decide) rfl).1
  simpa using h

/-! ## Join-engine helper lemmas -/

theorem buildInventory_singleton (vm : VMRecord)
    (nicMap : List (String × Option String)) (keys : List String) :
    buildInventory [vm] nicMap keys = processVM keys nicMap empty_inventory vm := by
  simp [buildInventory, List.foldlM]

theorem contains_or_decide (keys : List String) (a b : String) :
    (keys.contains a || keys.contains b) = decide (a ∈ keys ∨ b ∈ keys) := by
  by_cases ha : a ∈ keys
  · have ha' : keys.contains a = true := (contains_mem_iff keys a).mpr ha
    simp [ha', ha]
  · have ha' : keys.contains a = false := by
      rw [← Bool.not_eq_true, contains_mem_iff]
      exact ha
    by_cases hb : b ∈ keys
    · have hb' : keys.contains b = true := (contains_mem_iff keys b).mpr hb
      simp [ha', hb', hb]
    · have hb' : keys.contains b = false := by
        rw [← Bool.not_eq_true, contains_mem_iff]
        exact hb
      simp [ha', hb', ha, hb]

theorem processVM_windows (keys : List String)
    (nicMap : List (String × Option String)) (vm : VMRecord)
    (hos : vm.osType = some "Windows") (hname : trimName vm ≠ "")
    (pubv : Option String) (hpubv : vm.publisher = some pubv) :
    processVM keys nicMap empty_inventory vm =
      some { hostvars := [(trimName vm,
               { baseHV nicMap vm with mde_onboarded := some (onboardedB keys vm) })],
             all := [trimName vm], linux := [], windows := [trimName vm],
             network_appliances := [],
             windows_mde_onboarded := (if onboardedB keys vm then [trimName vm] else []),
             windows_mde_not_onboarded := (if onboardedB keys vm then [] else [trimName vm]) } := by
  have e1 : ((some "Windows" : Option String) == some "Linux") = false := by decide
  have e2 : ((some "Windows" : Option String) == some "Windows") = true := by decide
  simp only [processVM, hpubv, hos, if_neg hname, e1, e2, Bool.false_and,
    Bool.true_and, Bool.false_eq_true, if_false, if_true, baseHV, onboardedB]
  by_cases hmem : strLower (vm.id.getD "") ∈ keys ∨ strLower (trimName vm) ∈ keys
  · simp [hmem, empty_inventory, dictInsert]
  · simp [hmem, empty_inventory, dictInsert]

theorem processVM_linux (keys : List String)
    (nicMap : List (String × Option String)) (vm : VMRecord)
    (hos : vm.osType = some "Linux") (hname : trimName vm ≠ "")
    (pubv : Option String) (hpubv : vm.publisher = some pubv) :
    processVM keys nicMap empty_inventory vm =
      some { hostvars := [(trimName vm, baseHV nicMap vm)],
             all := [trimName vm],
             linux := (if isApplianceB pubv then [] else [trimName vm]),
             windows := [],
             network_appliances := (if isApplianceB pubv then [trimName vm] else []),
             windows_mde_onboarded := [], windows_mde_not_onboarded := [] } := by
  have e1 : ((some "Linux" : Option String) == some "Linux") = true := by decide
  simp only [processVM, hpubv, hos, if_neg hname, e1, Bool.true_and, baseHV,
    isApplianceB]
  by_cases hap : (APPLIANCE_PUBLISHERS.any
      (fun p => strContains (strLower (pubv.getD "")) p)) = true
  · simp [hap, empty_inventory, dictInsert]
  · rw [Bool.not_eq_true] at hap
    simp [hap, empty_inventory, dictInsert]

theorem processVM_other (keys : List String)
    (nicMap : List (String × Option String)) (vm : VMRecord)
    (hos1 : vm.osType ≠ some "Linux") (hos2 : vm.osType ≠ some "Windows")
    (hname : trimName vm ≠ "")
    (pubv : Option String) (hpubv : vm.publisher = some pubv) :
    processVM keys nicMap empty_inventory vm =
      some { hostvars := [(trimName vm, baseHV nicMap vm)],
             all := [trimName vm], linux := [], windows := [trimName vm],
             network_appliances := [],
             windows_mde_onboarded := [], windows_mde_not_onboarded := [] } := by
  have e1 : (vm.osType == some "Linux") = false := beq_eq_false_iff_ne.mpr hos1
  have e2 : (vm.osType == some "Windows") = false := beq_eq_false_iff_ne.mpr hos2
  simp only [processVM, hpubv, if_neg hname, e1, e2, Bool.false_and,
    Bool.false_eq_true, if_false, baseHV]
  simp [empty_inventory, dictInsert]

theorem processVM_none_of_missing_pub (keys : List String)
    (nicMap : List (String × Option String)) (inv : Inventory) (vm : VMRecord)
    (hname : trimName vm ≠ "") (hpub : vm.publisher = none) :
    processVM keys nicMap inv vm = none := by
  simp [processVM, hpub, if_neg hname]

theorem processVM_isSome_of_pub (keys : List String)
    (nicMap : List (String × Option String)) (inv : Inventory) (vm : VMRecord)
    (hpub : vm.publisher.isSome = true) :
    (processVM keys nicMap inv vm).isSome = true := by
  obtain ⟨pubv, hpubv⟩ := Option.isSome_iff_exists.mp hpub
  by_cases hname : trimName vm = ""
  · simp [processVM, hname]
  · simp only [processVM, hpubv, if_neg hname]
    repeat' split
    all_goals simp

/-! ## C1, C7, C10, C9: per-VM classification -/

/-- C1: a Windows VM with a non-empty name is classified onboarded exactly
when its lowered cloud resource id or its lowered host name is in the key
set (an OR test); the boolean is attached to its hostvars entry as
`mde_onboarded` and the host joins `windows` plus exactly the matching
onboarding group. -/
theorem c1_windows_onboarding_classification (keys : List String)
    (nicMap : List (String × Option String)) (vm : VMRecord)
    (hos : vm.osType = some "Windows") (hname : trimName vm ≠ "")
    (hpub : vm.publisher.isSome = true) :
    ∃ inv, buildInventory [vm] nicMap keys = some inv ∧
      inv.windows = [trimName vm] ∧
      (onboardedB keys vm = true ↔
        (strLower (vm.id.getD "") ∈ keys ∨ strLower (trimName vm) ∈ keys)) ∧
      (inv.windows_mde_onboarded =
        if strLower (vm.id.getD "") ∈ keys ∨ strLower (trimName vm) ∈ keys
        then [trimName vm] else []) ∧
      (inv.windows_mde_not_onboarded =
        if strLower (vm.id.getD "") ∈ keys ∨ strLower (trimName vm) ∈ keys
        then [] else [trimName vm]) ∧
      ∃ hv, dictGet inv.hostvars (trimName vm) = some hv ∧
        hv.mde_onboarded = some (onboardedB keys vm) := by
  obtain ⟨pubv, hpubv⟩ := Option.isSome_iff_exists.mp hpub
  rw [buildInventory_singleton, processVM_windows keys nicMap vm hos hname pubv hpubv]
  refine ⟨_, rfl, rfl, ?_, ?_, ?_,
    { baseHV nicMap vm with mde_onboarded := some (onboardedB keys vm) },
    by simp [dictGet, List.lookup], rfl⟩
  · simp [onboardedB, contains_or_decide]
  · simp [onboardedB, contains_or_decide]
  · simp [onboardedB, contains_or_decide]

theorem c1_windows_onboarding_classification_witness :
    ∃ inv, buildInventory [exVmWin] [] ["id1"] = some inv ∧
      inv.windows_mde_onboarded = ["HostA"] ∧
      inv.windows_mde_not_onboarded = [] := by
  obtain ⟨inv, h1, _hwin, _hiff, h3, h4, _⟩ :=
    c1_windows_onboarding_classification ["id1"] [] exVmWin rfl (by decide) rfl
  refine ⟨inv, h1, ?_, ?_⟩
  · rw [h3, if_pos (Or.inl (by decide))]
    decide
  · rw [h4, if_pos (Or.inl (by decide))]

/-- C7: a Linux VM with a non-empty name lands in `network_appliances`
exactly when its lowered publisher contains one of the eight appliance
vendor strings as a substring, and in `linux` otherwise; it never lands in
`windows`. -/
theorem c7_appliance_classification (keys : List String)
    (nicMap : List (String × Option String)) (vm : VMRecord)
    (pubv : Option String)
    (hos : vm.osType = some "Linux") (hname : trimName vm ≠ "")
    (hpubv : vm.publisher = some pubv) :
    ∃ inv, buildInventory [vm] nicMap keys = some inv ∧
      (inv.network_appliances =
        if ∃ p ∈ APPLIANCE_PUBLISHERS, strContains (strLower (pubv.getD "")) p = true
        then [trimName vm] else []) ∧
      (inv.linux =
        if ∃ p ∈ APPLIANCE_PUBLISHERS, strContains (strLower (pubv.getD "")) p = true
        then [] else [trimName vm]) ∧
      inv.windows = [] := by
  rw [buildInventory_singleton, processVM_linux keys nicMap vm hos hname pubv hpubv]
  by_cases hap : ∃ p ∈ APPLIANCE_PUBLISHERS, strContains (strLower (pubv.getD "")) p = true
  · have hb : isApplianceB pubv = true := by
      rw [isApplianceB, List.any_eq_true]
      exact hap
    exact ⟨_, rfl, by rw [hb, if_pos hap]; rfl, by rw [hb, if_pos hap]; rfl, rfl⟩
  · have hb : isApplianceB pubv = false := by
      rw [← Bool.not_eq_true, isApplianceB, List.any_eq_true]
      exact hap
    exact ⟨_, rfl, by rw [hb, if_neg hap]; rfl, by rw [hb, if_neg hap]; rfl, rfl⟩

theorem c7_appliance_classification_witness :
    ∃ inv, buildInventory [exVmCisco] [] [] = some inv ∧
      inv.network_appliances = ["lnx1"] ∧ inv.linux = [] := by
  have hcond : ∃ p ∈ APPLIANCE_PUBLISHERS,
      strContains (strLower ((some "Cisco Systems, Inc." : Option String).getD "")) p = true := by
    decide
  obtain ⟨inv, h1, hna, hlx, _⟩ :=
    c7_appliance_classification [] [] exVmCisco (some "Cisco Systems, Inc.")
      rfl (by decide) rfl
  refine ⟨inv, h1, ?_, ?_⟩
  · rw [hna, if_pos hcond]
    decide
  · rw [hlx, if_pos hcond]

/-- C10: a VM with a non-empty name whose OS type is neither Linux nor
Windows falls through to the `windows` group, joins neither onboarding
subgroup, and its hostvars entry carries no `mde_onboarded` key. -/
theorem c10_unknown_ostype_fallback (keys : List String)
    (nicMap : List (String × Option String)) (vm : VMRecord)
    (hos1 : vm.osType ≠ some "Linux") (hos2 : vm.osType ≠ some "Windows")
    (hname : trimName vm ≠ "") (hpub : vm.publisher.isSome = true) :
    ∃ inv, buildInventory [vm] nicMap keys = some inv ∧
      inv.windows = [trimName vm] ∧
      inv.windows_mde_onboarded = [] ∧
      inv.windows_mde_not_onboarded = [] ∧
      ∃ hv, dictGet inv.hostvars (trimName vm) = some hv ∧
        hv.mde_onboarded = none := by
  obtain ⟨pubv, hpubv⟩ := Option.isSome_iff_exists.mp hpub
  rw [buildInventory_singleton, processVM_other keys nicMap vm hos1 hos2 hname pubv hpubv]
  exact ⟨_, rfl, rfl, rfl, rfl, baseHV nicMap vm, by simp [dictGet, List.lookup], rfl⟩

theorem c10_unknown_ostype_fallback_witness :
    ∃ inv, buildInventory [exVmOther] [] [] = some inv ∧
      inv.windows = [trimName exVmOther] ∧
      inv.windows_mde_onboarded = [] ∧
      inv.windows_mde_not_onboarded = [] ∧
      ∃ hv, dictGet inv.hostvars (trimName exVmOther) = some hv ∧
        hv.mde_onboarded = none :=
  c10_unknown_ostype_fallback [] [] exVmOther (by decide) (by decide)
    (by decide) rfl

/-- C9: reading `vm["publisher"]` by direct indexing makes a VM record with
a non-empty name and no publisher key abort the whole join with a
`KeyError` (the run returns no inventory at all), while a record whose
publisher key is present — even with every defaulted field absent — is
processed without error. -/
theorem c9_publisher_keyerror :
    (∀ (keys : List String) (nicMap : List (String × Option String))
        (vms₁ vms₂ : List VMRecord) (vm : VMRecord),
        trimName vm ≠ "" → vm.publisher = none →
        buildInventory (vms₁ ++ vm :: vms₂) nicMap keys = none) ∧
    (∀ (keys : List String) (nicMap : List (String × Option String))
        (inv : Inventory) (vm : VMRecord),
        vm.publisher.isSome = true →
        (processVM keys nicMap inv vm).isSome = true) := by
  constructor
  · intro keys nicMap vms₁ vms₂ vm hname hpub
    unfold buildInventory
    rw [List.foldlM_append]
    cases h1 : List.foldlM (fun inv vm => processVM keys nicMap inv vm)
        empty_inventory vms₁ with
    | none => simp [h1]
    | some inv₁ =>
      simp [h1, List.foldlM_cons,
        processVM_none_of_missing_pub keys nicMap inv₁ vm hname hpub]
  · intro keys nicMap inv vm hpub
    exact processVM_isSome_of_pub keys nicMap inv vm hpub

theorem c9_publisher_keyerror_witness :
    buildInventory [exVmNoPub] [] [] = none ∧
    (processVM [] [] empty_inventory exVmWin).isSome = true :=
  ⟨c9_publisher_keyerror.1 [] [] [] [] exVmNoPub (by decide) rfl,
   c9_publisher_keyerror.2 [] [] empty_inventory exVmWin rfl⟩

/-! ## C3: counting lemmas for the partition invariant -/

theorem countKey_nil (x : String) : countKey [] x = 0 := rfl

theorem countKey_cons (kv : String × HostVars) (m : List (String × HostVars))
    (x : String) :
    countKey (kv :: m) x =
      if kv.1 == x then countKey m x + 1 else countKey m x := by
  simp only [countKey, List.filter_cons]
  cases h : kv.1 == x <;> simp [h]

theorem countKey_append (m₁ m₂ : List (String × HostVars)) (x : String) :
    countKey (m₁ ++ m₂) x = countKey m₁ x + countKey m₂ x := by
  simp [countKey, List.filter_append]

theorem countKey_eq_zero_iff (m : List (String × HostVars)) (x : String) :
    countKey m x = 0 ↔ m.any (fun kv => kv.1 == x) = false := by
  induction m with
  | nil => simp [countKey]
  | cons kv t ih =>
    rw [countKey_cons]
    cases h : kv.1 == x <;> simp [h, ih]

theorem countKey_map_replace (m : List (String × HostVars)) (k : String)
    (v : HostVars) (x : String) :
    countKey (m.map (fun kv => if kv.1 == k then (k, v) else kv)) x
      = countKey m x := by
  induction m with
  | nil => rfl
  | cons kv t ih =>
    by_cases hk : (kv.1 == k) = true
    · have hkk : kv.1 = k := eq_of_beq hk
      simp only [List.map_cons, hk, if_true, countKey_cons, hkk, ih]
      simp
    · have hk' : (kv.1 == k) = false := by
        rw [← Bool.not_eq_true]
        exact hk
      simp only [List.map_cons, hk', Bool.false_eq_true, if_false, countKey_cons, ih]

theorem countKey_dictInsert_ne (m : List (String × HostVars)) (k : String)
    (v : HostVars) (x : String) (h : (k == x) = false) :
    countKey (dictInsert m k v) x = countKey m x := by
  unfold dictInsert
  split
  · exact countKey_map_replace m k v x
  · rw [countKey_append]
    simp [countKey_cons, countKey_nil, h]

theorem countKey_dictInsert_self (m : List (String × HostVars)) (k : String)
    (v : HostVars) (h : countKey m k = 0) :
    countKey (dictInsert m k v) k = 1 := by
  have hany : m.any (fun kv => kv.1 == k) = false := (countKey_eq_zero_iff m k).mp h
  unfold dictInsert
  rw [if_neg (by simp [hany])]
  rw [countKey_append, h]
  simp [countKey_cons, countKey_nil]

theorem countKey_dictInsert_self_pos (m : List (String × HostVars)) (k : String)
    (v : HostVars) (h : countKey m k ≠ 0) :
    countKey (dictInsert m k v) k = countKey m k := by
  have hany : m.any (fun kv => kv.1 == k) = true := by
    cases hc : m.any (fun kv => kv.1 == k)
    · exact absurd ((countKey_eq_zero_iff m k).mpr hc) h
    · rfl
  unfold dictInsert
  rw [if_pos hany]
  exact countKey_map_replace m k v k

theorem countKey_dictInsert_twice (m : List (String × HostVars)) (k : String)
    (v₁ v₂ : HostVars) (h : countKey m k = 0) :
    countKey (dictInsert (dictInsert m k v₁) k v₂) k = 1 := by
  have h1 : countKey (dictInsert m k v₁) k = 1 := countKey_dictInsert_self m k v₁ h
  rw [countKey_dictInsert_self_pos _ _ _ (by rw [h1]; exact one_ne_zero), h1]

/-- Processing a VM whose (trimmed) name is blank, or differs from `x`,
leaves every count of `x` unchanged. -/
theorem processVM_count_preserved (keys : List String)
    (nicMap : List (String × Option String)) (inv inv' : Inventory)
    (vm : VMRecord) (x : String)
    (hx : trimName vm = "" ∨ trimName vm ≠ x)
    (hstep : processVM keys nicMap inv vm = some inv') :
    List.count x inv'.all = List.count x inv.all ∧
    List.count x inv'.linux = List.count x inv.linux ∧
    List.count x inv'.network_appliances = List.count x inv.network_appliances ∧
    List.count x inv'.windows = List.count x inv.windows ∧
    List.count x inv'.windows_mde_onboarded = List.count x inv.windows_mde_onboarded ∧
    List.count x inv'.windows_mde_not_onboarded = List.count x inv.windows_mde_not_onboarded ∧
    countKey inv'.hostvars x = countKey inv.hostvars x := by
  by_cases hb : trimName vm = ""
  · simp only [processVM, if_pos hb, Option.some.injEq] at hstep
    subst hstep
    exact ⟨rfl, rfl, rfl, rfl, rfl, rfl, rfl⟩
  · have hne : trimName vm ≠ x := hx.resolve_left hb
    have hbeq : (trimName vm == x) = false := beq_eq_false_iff_ne.mpr hne
    cases hpub : vm.publisher with
    | none => simp [processVM, if_neg hb, hpub] at hstep
    | some pubv =>
      simp only [processVM, if_neg hb, hpub] at hstep
      repeat' split at hstep
      all_goals
        simp only [Option.some.injEq] at hstep
      all_goals subst hstep
      all_goals
        refine ⟨?_, ?_, ?_, ?_, ?_, ?_, ?_⟩ <;>
          simp [List.count_append, List.count_singleton', hbeq, hne,
            countKey_append, countKey_dictInsert_ne _ _ _ _ hbeq]

/-- Processing a VM whose (trimmed) name is `x ≠ ""`, when `x` is not yet a
hostvars key, adds one occurrence of `x` to `all`, one occurrence in total
to the three OS groups, and makes `x` a hostvars key exactly once. -/
theorem processVM_count_insert (keys : List String)
    (nicMap : List (String × Option String)) (inv inv' : Inventory)
    (vm : VMRecord)
    (hstep : processVM keys nicMap inv vm = some inv')
    (hb : trimName vm ≠ "")
    (hkey : countKey inv.hostvars (trimName vm) = 0) :
    List.count (trimName vm) inv'.all = List.count (trimName vm) inv.all + 1 ∧
    List.count (trimName vm) inv'.linux
        + List.count (trimName vm) inv'.network_appliances
        + List.count (trimName vm) inv'.windows
      = List.count (trimName vm) inv.linux
        + List.count (trimName vm) inv.network_appliances
        + List.count (trimName vm) inv.windows + 1 ∧
    countKey inv'.hostvars (trimName vm) = 1 := by
  cases hpub : vm.publisher with
  | none => simp [processVM, if_neg hb, hpub] at hstep
  | some pubv =>
    simp only [processVM, if_neg hb, hpub] at hstep
    repeat' split at hstep
    all_goals
      simp only [Option.some.injEq] at hstep
    all_goals subst hstep
    all_goals
      refine ⟨?_, ?_, ?_⟩ <;>
        (simp [List.count_append, List.count_singleton',
          countKey_dictInsert_self _ _ _ hkey,
          countKey_dictInsert_twice _ _ _ _ hkey];
         try omega)

/-- Folding the VM loop over records none of which is named `x` (blank
records included) preserves every count of `x`. -/
theorem foldlM_count_preserved (keys : List String)
    (nicMap : List (String × Option String)) (x : String) :
    ∀ (vms : List VMRecord) (inv inv' : Inventory),
    (∀ vm ∈ vms, trimName vm = "" ∨ trimName vm ≠ x) →
    List.foldlM (fun i v => processVM keys nicMap i v) inv vms = some inv' →
    List.count x inv'.all = List.count x inv.all ∧
    List.count x inv'.linux = List.count x inv.linux ∧
    List.count x inv'.network_appliances = List.count x inv.network_appliances ∧
    List.count x inv'.windows = List.count x inv.windows ∧
    List.count x inv'.windows_mde_onboarded = List.count x inv.windows_mde_onboarded ∧
    List.count x inv'.windows_mde_not_onboarded = List.count x inv.windows_mde_not_onboarded ∧
    countKey inv'.hostvars x = countKey inv.hostvars x := by
  intro vms
  induction vms with
  | nil =>
    intro inv inv' _ h
    simp only [List.foldlM_nil] at h
    simp only [pure, Option.some.injEq] at h
    subst h
    exact ⟨rfl, rfl, rfl, rfl, rfl, rfl, rfl⟩
  | cons vm rest ih =>
    intro inv inv' hall h
    rw [List.foldlM_cons] at h
    cases hstep : processVM keys nicMap inv vm with
    | none => rw [hstep] at h; simp at h
    | some inv₁ =>
      rw [hstep] at h
      replace h : List.foldlM (fun i v => processVM keys nicMap i v) inv₁ rest
          = some inv' := h
      obtain ⟨p1, p2, p3, p4, p5, p6, p7⟩ :=
        processVM_count_preserved keys nicMap inv inv₁ vm x
          (hall vm (by simp)) hstep
      obtain ⟨q1, q2, q3, q4, q5, q6, q7⟩ :=
        ih inv₁ inv' (fun u hu => hall u (by simp [hu])) h
      exact ⟨q1.trans p1, q2.trans p2, q3.trans p3, q4.trans p4,
        q5.trans p5, q6.trans p6, q7.trans p7⟩

/-- Folding the VM loop over a list in which exactly one record is named
`x ≠ ""` (and `x` is not yet a hostvars key) yields one occurrence of `x`
in `all`, one in total across the three OS groups, and one hostvars
entry. -/
theorem foldlM_count_insert (keys : List String)
    (nicMap : List (String × Option String)) (x : String)
    (vms₁ vms₂ : List VMRecord) (vm : VMRecord) (inv inv' : Inventory)
    (hvm : trimName vm = x)
    (h₁ : ∀ u ∈ vms₁, trimName u ≠ x) (h₂ : ∀ u ∈ vms₂, trimName u ≠ x)
    (hx : x ≠ "")
    (hkey : countKey inv.hostvars x = 0)
    (h : List.foldlM (fun i v => processVM keys nicMap i v) inv
        (vms₁ ++ vm :: vms₂) = some inv') :
    List.count x inv'.all = List.count x inv.all + 1 ∧
    List.count x inv'.linux + List.count x inv'.network_appliances
        + List.count x inv'.windows
      = List.count x inv.linux + List.count x inv.network_appliances
        + List.count x inv.windows + 1 ∧
    countKey inv'.hostvars x = 1 := by
  rw [List.foldlM_append] at h
  cases hA : List.foldlM (fun i v => processVM keys nicMap i v) inv vms₁ with
  | none => rw [hA] at h; simp at h
  | some invA =>
    rw [hA] at h
    replace h : List.foldlM (fun i v => processVM keys nicMap i v) invA
        (vm :: vms₂) = some inv' := h
    rw [List.foldlM_cons] at h
    cases hstep : processVM keys nicMap invA vm with
    | none => rw [hstep] at h; simp at h
    | some invB =>
      rw [hstep] at h
      replace h : List.foldlM (fun i v => processVM keys nicMap i v) invB
          vms₂ = some inv' := h
      obtain ⟨a1, a2, a3, a4, _, _, a7⟩ :=
        foldlM_count_preserved keys nicMap x vms₁ inv invA
          (fun u hu => Or.inr (h₁ u hu)) hA
      have hkeyA : countKey invA.hostvars (trimName vm) = 0 := by
        rw [hvm, a7]
        exact hkey
      obtain ⟨b1, b2, b3⟩ :=
        processVM_count_insert keys nicMap invA invB vm hstep
          (by rw [hvm]; exact hx) hkeyA
      rw [hvm] at b1 b2 b3
      obtain ⟨c1, c2, c3, c4, _, _, c7⟩ :=
        foldlM_count_preserved keys nicMap x vms₂ invB inv'
          (fun u hu => Or.inr (h₂ u hu)) h
      refine ⟨?_, ?_, ?_⟩
      · rw [c1, b1, a1]
      · rw [c2, c3, c4]
        omega
      · rw [c7, b3]

/-- C3: when every non-empty trimmed VM name occurs at most once, a
successful join gives each non-empty name exactly one occurrence in `all`,
exactly one occurrence across the three OS groups together, and exactly one
hostvars entry; the empty name never occurs anywhere, and a blank-named
record is skipped without effect. -/
theorem c3_group_partition_invariant (keys : List String)
    (nicMap : List (String × Option String)) (vms : List VMRecord)
    (inv : Inventory)
    (hbuild : buildInventory vms nicMap keys = some inv)
    (huniq : ∀ t : String, t ≠ "" → List.count t (vms.map trimName) ≤ 1) :
    (∀ vm ∈ vms, trimName vm ≠ "" →
       List.count (trimName vm) inv.all = 1 ∧
       List.count (trimName vm) inv.linux
           + List.count (trimName vm) inv.network_appliances
           + List.count (trimName vm) inv.windows = 1 ∧
       countKey inv.hostvars (trimName vm) = 1) ∧
    (List.count "" inv.all = 0 ∧ List.count "" inv.linux = 0 ∧
     List.count "" inv.network_appliances = 0 ∧ List.count "" inv.windows = 0 ∧
     List.count "" inv.windows_mde_onboarded = 0 ∧
     List.count "" inv.windows_mde_not_onboarded = 0 ∧
     countKey inv.hostvars "" = 0) ∧
    (∀ (inv₀ : Inventory) (vm : VMRecord), trimName vm = "" →
       processVM keys nicMap inv₀ vm = some inv₀) := by
  unfold buildInventory at hbuild
  refine ⟨?_, ?_, ?_⟩
  · intro vm hmem hne
    obtain ⟨s, u, rfl⟩ := List.append_of_mem hmem
    have hcnt := huniq (trimName vm) hne
    rw [List.map_append, List.map_cons, List.count_append, List.count_cons] at hcnt
    simp only [beq_self_eq_true, if_true] at hcnt
    have hs0 : List.count (trimName vm) (s.map trimName) = 0 := by omega
    have hu0 : List.count (trimName vm) (u.map trimName) = 0 := by omega
    have hs : ∀ w ∈ s, trimName w ≠ trimName vm := by
      intro w hw heq
      exact absurd (heq ▸ List.mem_map_of_mem trimName hw)
        (List.count_eq_zero.mp hs0)
    have hu : ∀ w ∈ u, trimName w ≠ trimName vm := by
      intro w hw heq
      exact absurd (heq ▸ List.mem_map_of_mem trimName hw)
        (List.count_eq_zero.mp hu0)
    obtain ⟨r1, r2, r3⟩ :=
      foldlM_count_insert keys nicMap (trimName vm) s u vm empty_inventory inv
        rfl hs hu hne rfl hbuild
    refine ⟨?_, ?_, r3⟩
    · rw [r1]; rfl
    · rw [r2]; rfl
  · obtain ⟨r1, r2, r3, r4, r5, r6, r7⟩ :=
      foldlM_count_preserved keys nicMap "" vms empty_inventory inv
        (fun u _ => (eq_or_ne (trimName u) "")) hbuild
    exact ⟨r1, r2, r3, r4, r5, r6, r7⟩
  · intro inv₀ vm h
    simp [processVM, h]

theorem c3_group_partition_invariant_witness :
    List.count "HostA" c3inv.all = 1 ∧
    List.count "HostA" c3inv.linux + List.count "HostA" c3inv.network_appliances
      + List.count "HostA" c3inv.windows = 1 ∧
    countKey c3inv.hostvars "HostA" = 1 ∧
    List.count "" c3inv.all = 0 := by
  have hbuild : buildInventory c3vms [("nic1", some "10.0.0.1")] ["id1"]
      = some c3inv := by decide
  have huniq : ∀ t : String, t ≠ "" →
      List.count t (c3vms.map trimName) ≤ 1 := by
    intro t ht
    by_cases h1 : t = "lnx1"
    · subst h1; decide
    · by_cases h2 : t = "HostA"
      · subst h2; decide
      · by_cases h3 : t = "box1"
        · subst h3; decide
        · have e1 : ("lnx1" == t) = false := beq_eq_false_iff_ne.mpr (Ne.symm h1)
          have e2 : ("HostA" == t) = false := beq_eq_false_iff_ne.mpr (Ne.symm h2)
          have e3 : ("box1" == t) = false := beq_eq_false_iff_ne.mpr (Ne.symm h3)
          have e4 : ("" == t) = false := beq_eq_false_iff_ne.mpr (Ne.symm ht)
          have hmap : c3vms.map trimName = ["lnx1", "HostA", "box1", ""] := by decide
          rw [hmap]
          simp [List.count_cons, e1, e2, e3, e4]
  obtain ⟨h1, h2, _⟩ := c3_group_partition_invariant ["id1"]
    [("nic1", some "10.0.0.1")] c3vms c3inv hbuild huniq
  have hh := h1 exVmWin (by decide) (by decide)
  have ht : trimName exVmWin = "HostA" := by decide
  rw [ht] at hh
  exact ⟨hh.1, hh.2.1, hh.2.2, h2.1⟩

end AzInv
